import Mathlib

/-!
Shallow embedding of the ticket-reservation backend
(`src/backend/src/apps/events` and `src/backend/src/apps/reservations`).

Time is modelled as an integer number of minutes (`datetime` values become
`Int`, `datetime.utcnow()` becomes an explicit `now : Int` parameter,
`timedelta(minutes=15)` becomes the constant `15`).  Python integers become
`Int`, `Numeric(10,2)` money columns become `Rat`, nullable strings become
`Option String`.  Each SQLAlchemy model instance becomes a Lean structure;
the persisted database state becomes a `World` holding the event rows and
reservation rows.  View functions return the new world together with an
outcome constructor, one constructor per `return` branch of the Python view.
-/

namespace TicketSystem

/-- `ReservationStatus` enum from `apps/reservations/models.py`. -/
inductive ReservationStatus where
  | pending
  | confirmed
  | cancelled
deriving DecidableEq, Repr

/-- `PaymentStatus` enum from `apps/reservations/models.py`. -/
inductive PaymentStatus where
  | pending
  | completed
  | failed
  | refunded
deriving DecidableEq, Repr

/-- The `Event` model row (`apps/events/models.py`): scheduling, capacity and
availability columns that the reservation logic reads and writes. -/
structure EventS where
  id : Nat
  event_date : Int
  total_capacity : Int
  available_tickets : Int
  ticket_price : Rat
  is_active : Bool
deriving DecidableEq, Repr

/-- The `Reservation` model row (`apps/reservations/models.py`). -/
structure ReservationS where
  id : Nat
  user_id : Nat
  event_id : Nat
  ticket_quantity : Int
  unit_price : Rat
  total_amount : Rat
  reservation_status : ReservationStatus
  payment_status : PaymentStatus
  payment_reference : Option String
  created_at : Int
deriving DecidableEq, Repr

/-- `Event.is_upcoming`: `self.event_date > datetime.utcnow()`. -/
def EventS.is_upcoming (e : EventS) (now : Int) : Bool :=
  decide (e.event_date > now)

/-- `Event.can_reserve_tickets`: active, upcoming, enough tickets, positive
quantity — in the source's order of conjuncts. -/
def EventS.can_reserve_tickets (e : EventS) (now : Int) (quantity : Int) : Bool :=
  e.is_active &&
  e.is_upcoming now &&
  decide (e.available_tickets ≥ quantity) &&
  decide (quantity > 0)

/-- `Event.reserve_tickets`: on failure of the guard returns the event
unchanged with `false`; otherwise decrements `available_tickets`. -/
def EventS.reserve_tickets (e : EventS) (now : Int) (quantity : Int) :
    EventS × Bool :=
  if e.can_reserve_tickets now quantity then
    ({ e with available_tickets := e.available_tickets - quantity }, true)
  else
    (e, false)

/-- `Event.release_tickets`: increments `available_tickets`, clamped above by
`total_capacity`. -/
def EventS.release_tickets (e : EventS) (quantity : Int) : EventS :=
  { e with available_tickets := min (e.available_tickets + quantity) e.total_capacity }

/-- `Reservation.is_active`: status in `[PENDING, CONFIRMED]`. -/
def ReservationS.is_active (r : ReservationS) : Bool :=
  r.reservation_status == .pending || r.reservation_status == .confirmed

/-- `Reservation.can_be_cancelled`: not already cancelled and the associated
event has not started yet. -/
def ReservationS.can_be_cancelled (r : ReservationS) (e : EventS) (now : Int) :
    Bool :=
  !(r.reservation_status == .cancelled) && e.is_upcoming now

/-- `Reservation.confirm_payment`: unconditionally sets CONFIRMED / COMPLETED
and records the payment reference. -/
def ReservationS.confirm_payment (r : ReservationS) (ref : String) :
    ReservationS :=
  { r with
      reservation_status := .confirmed
      payment_status := .completed
      payment_reference := some ref }

/-- `Reservation.cancel_reservation`: guard on `can_be_cancelled`, release the
tickets on the associated event, set CANCELLED, and move a COMPLETED payment
to REFUNDED.  Returns the updated reservation, the updated event, and the
method's boolean result. -/
def ReservationS.cancel_reservation (r : ReservationS) (e : EventS)
    (now : Int) : ReservationS × EventS × Bool :=
  if r.can_be_cancelled e now then
    let e' := e.release_tickets r.ticket_quantity
    let r' := { r with
        reservation_status := .cancelled
        payment_status :=
          if r.payment_status == .completed then .refunded
          else r.payment_status }
    (r', e', true)
  else
    (r, e, false)

/-- The persisted database state: the `events` table and the `reservations`
table. -/
structure World where
  events : List EventS
  reservations : List ReservationS
deriving DecidableEq, Repr

/-- `Event.find_by_id` / the `reservation.event` relationship. -/
def World.findEvent (w : World) (eid : Nat) : Option EventS :=
  w.events.find? (fun e => e.id == eid)

/-- `Reservation.query.filter_by(id=..., user_id=...).first()`. -/
def World.findReservation (w : World) (rid user : Nat) : Option ReservationS :=
  w.reservations.find? (fun r => r.id == rid && r.user_id == user)

/-- Autoincrement primary key for a freshly inserted reservation row. -/
def World.nextReservationId (w : World) : Nat :=
  w.reservations.foldr (fun r m => max r.id m) 0 + 1

/-- Replace the event row with the given id. -/
def World.setEvent (w : World) (e : EventS) : World :=
  { w with events := w.events.map (fun x => if x.id == e.id then e else x) }

/-- Apply an update to the reservation row with the given id. -/
def World.mapReservation (w : World) (rid : Nat)
    (f : ReservationS → ReservationS) : World :=
  { w with reservations :=
      w.reservations.map (fun x => if x.id == rid then f x else x) }

/-! ### Reservation views (`apps/reservations/views.py`) -/

/-- Outcomes of the `create_reservation` view, one constructor per return
branch (schema 400, event 404, insufficient-tickets 400, created 201). -/
inductive CreateOutcome where
  | validationError
  | eventNotFound
  | insufficientTickets
  | created
deriving DecidableEq, Repr

/-- The reservation row inserted by `create_reservation`: PENDING status,
PENDING payment, no reference, priced at the event's current
`ticket_price`. -/
def newReservation (w : World) (user : Nat) (e : EventS)
    (ticket_quantity now : Int) : ReservationS :=
  { id := w.nextReservationId
    user_id := user
    event_id := e.id
    ticket_quantity := ticket_quantity
    unit_price := e.ticket_price
    total_amount := e.ticket_price * (ticket_quantity : Rat)
    reservation_status := .pending
    payment_status := .pending
    payment_reference := none
    created_at := now }

/-- The `create_reservation` view: schema validation
(`ReservationCreateSchema` bounds `ticket_quantity` to 1..10), event lookup
and `is_active` check, `can_reserve_tickets` check, then
`reserve_tickets` plus insertion of a new PENDING/PENDING reservation row
priced at the event's current `ticket_price`. -/
def create_reservation (w : World) (user eid : Nat) (ticket_quantity : Int)
    (now : Int) : World × CreateOutcome :=
  if ticket_quantity < 1 || ticket_quantity > 10 then
    (w, .validationError)
  else
    match w.findEvent eid with
    | none => (w, .eventNotFound)
    | some e =>
      if !e.is_active then (w, .eventNotFound)
      else if !(e.can_reserve_tickets now ticket_quantity) then
        (w, .insufficientTickets)
      else
        ({ events := (w.setEvent (e.reserve_tickets now ticket_quantity).1).events
           reservations :=
             w.reservations ++ [newReservation w user e ticket_quantity now] },
          .created)

/-- Outcomes of the `process_payment` view: schema 400, 404, non-PENDING 400,
success 200, and the catch-all `except Exception` 500 response
`'Payment processing error'` (reached when `reservation.save()` commits a
`payment_reference` that collides with the unique column constraint). -/
inductive PaymentOutcome where
  | notFound
  | cannotBePaid
  | ok
  | paymentProcessingError
deriving DecidableEq, Repr

/-- The `process_payment` view: find the caller's reservation, reject unless
PENDING, then `confirm_payment` and save.  The save commits the row; a
duplicate `payment_reference` violates the unique constraint, the commit
raises `IntegrityError`, and the generic handler returns the 500 response
with the persisted state unchanged. -/
def process_payment (w : World) (user rid : Nat) (payment_reference : String) :
    World × PaymentOutcome :=
  match w.findReservation rid user with
  | none => (w, .notFound)
  | some r =>
    if !(r.reservation_status == .pending) then (w, .cannotBePaid)
    else if w.reservations.any
        (fun x => x.id != r.id && x.payment_reference == some payment_reference) then
      (w, .paymentProcessingError)
    else
      (w.mapReservation r.id (fun x => x.confirm_payment payment_reference), .ok)

/-- Outcomes of the `cancel_reservation` view: 404, `can_be_cancelled` 400,
success 200, and the 500 path (only reachable when the reservation's event
row is missing, which the foreign key rules out). -/
inductive CancelOutcome where
  | notFound
  | cannotBeCancelled
  | ok
  | cancellationError
deriving DecidableEq, Repr

/-- The `cancel_reservation` view: find the caller's reservation, check
`can_be_cancelled`, then run `Reservation.cancel_reservation` and save both
rows. -/
def cancel_reservation_view (w : World) (user rid : Nat) (now : Int) :
    World × CancelOutcome :=
  match w.findReservation rid user with
  | none => (w, .notFound)
  | some r =>
    match w.findEvent r.event_id with
    | none => (w, .cancellationError)
    | some e =>
      if !(r.can_be_cancelled e now) then (w, .cannotBeCancelled)
      else
        let t := r.cancel_reservation e now
        ((w.setEvent t.2.1).mapReservation r.id (fun _ => t.1), .ok)

/-- Fields accepted by `ReservationUpdateSchema`: an optional
`reservation_status` (any enum value) and an optional `payment_reference`. -/
structure ReservationUpdate where
  reservation_status : Option ReservationStatus
  payment_reference : Option String
deriving DecidableEq, Repr

/-- `setattr` loop of the `update_reservation` view over the loaded fields. -/
def applyUpdate (d : ReservationUpdate) (r : ReservationS) : ReservationS :=
  let r₁ := match d.reservation_status with
    | some s => { r with reservation_status := s }
    | none => r
  match d.payment_reference with
  | some p => { r₁ with payment_reference := some p }
  | none => r₁

/-- Outcomes of the `update_reservation` view. -/
inductive UpdateOutcome where
  | notFound
  | ok
deriving DecidableEq, Repr

/-- The `update_reservation` view: find the caller's reservation and set every
field present in the request body, with no state-machine restriction. -/
def update_reservation (w : World) (user rid : Nat) (d : ReservationUpdate) :
    World × UpdateOutcome :=
  match w.findReservation rid user with
  | none => (w, .notFound)
  | some _ =>
    (w.mapReservation rid (fun x => applyUpdate d x), .ok)

/-! ### Business rules and the expiry sweeper
(`apps/reservations/permissions.py`) -/

/-- `get_reservation_timeout_minutes`: the fixed 15-minute hold. -/
def get_reservation_timeout_minutes : Int := 15

/-- `validate_reservation_business_rules`: the list of error messages, built
in the source's order.  `user` is the requesting user's id when present. -/
def validate_reservation_business_rules (ticket_quantity : Int)
    (event : Option EventS) (user : Option Nat) (w : World) (now : Int) :
    List String :=
  let e₁ : List String :=
    if ticket_quantity ≤ 0 then ["Ticket quantity must be greater than 0"] else []
  let e₂ : List String :=
    if ticket_quantity > 10 then ["Maximum 10 tickets per reservation"] else []
  let e₃ : List String :=
    match event with
    | some e =>
      if ticket_quantity > e.available_tickets then
        let n := e.available_tickets
        [s!"Only {n} tickets available"]
      else []
    | none => []
  let e₄ : List String :=
    match user, event with
    | some uid, some e =>
      if w.reservations.any (fun r =>
          r.user_id == uid && r.event_id == e.id &&
          r.reservation_status == .pending) then
        ["You already have a pending reservation for this event"]
      else []
    | _, _ => []
  let e₅ : List String :=
    match event with
    | some e => if !(e.is_upcoming now) then ["Cannot reserve tickets for past events"] else []
    | none => []
  e₁ ++ e₂ ++ e₃ ++ e₄ ++ e₅

/-- One iteration of the sweep loop in `cleanup_expired_reservations`: release
the tickets on the reservation's event and mark the reservation CANCELLED.
When the event row is missing (impossible under the foreign key), the
attribute access raises, the `except` branch skips the item, and the state is
left as it was. -/
def sweepStep (w : World) (r : ReservationS) : World :=
  if w.events.any (fun e => e.id == r.event_id) then
    { events := w.events.map (fun e =>
        if e.id == r.event_id then e.release_tickets r.ticket_quantity else e)
      reservations := w.reservations.map (fun x =>
        if x.id == r.id then { x with reservation_status := .cancelled } else x) }
  else
    w

/-- The query predicate of `cleanup_expired_reservations`: still PENDING and
created strictly before `now - timeout`. -/
def isExpiredPending (now : Int) (r : ReservationS) : Bool :=
  r.reservation_status == .pending &&
  decide (r.created_at < now - get_reservation_timeout_minutes)

/-- `cleanup_expired_reservations`: select the expired PENDING reservations
once, then process each in turn. -/
def cleanup_expired_reservations (now : Int) (w : World) : World :=
  (w.reservations.filter (isExpiredPending now)).foldl sweepStep w

/-! ### The service boundary as a step relation -/

/-- The operations exposed at the service boundary that the invariant claims
quantify over. -/
inductive Op where
  | create (user eid : Nat) (ticket_quantity : Int)
  | pay (user rid : Nat) (payment_reference : String)
  | cancel (user rid : Nat)
  | sweep
deriving DecidableEq, Repr

/-- The state transition of one completed operation. -/
def applyOp (now : Int) (w : World) : Op → World
  | .create user eid q => (create_reservation w user eid q now).1
  | .pay user rid ref => (process_payment w user rid ref).1
  | .cancel user rid => (cancel_reservation_view w user rid now).1
  | .sweep => cleanup_expired_reservations now w

/-! ### Invariants -/

/-- Sum of `ticket_quantity` over the PENDING/CONFIRMED reservations of one
event, over a list of reservation rows. -/
def activeSumL (l : List ReservationS) (eid : Nat) : Int :=
  ((l.filter (fun r => r.event_id == eid && r.is_active)).map
    (fun r => r.ticket_quantity)).sum

/-- Sum of `ticket_quantity` over the PENDING/CONFIRMED reservations of one
event. -/
def activeTicketSum (w : World) (eid : Nat) : Int :=
  activeSumL w.reservations eid

/-- The spec's inventory equation and bounds for one event, exactly as the
claim states them. -/
def InventoryInv (w : World) (eid : Nat) : Prop :=
  ∀ e ∈ w.events, e.id = eid →
    e.available_tickets + activeTicketSum w eid = e.total_capacity ∧
    0 ≤ e.available_tickets ∧ e.available_tickets ≤ e.total_capacity

/-- The unique column constraint on `payment_reference`: no two distinct
reservation rows share a non-null reference. -/
def RefsUnique (l : List ReservationS) : Prop :=
  ∀ a ∈ l, ∀ b ∈ l, a.id ≠ b.id → ∀ s : String,
    a.payment_reference = some s → b.payment_reference ≠ some s

/-- The inductive strengthening of `InventoryInv`: primary keys are unique
(the database guarantees this) and every PENDING/CONFIRMED reservation holds
a positive number of tickets (creation only admits quantities in 1..10). -/
def StrongInv (w : World) (eid : Nat) : Prop :=
  (w.events.map EventS.id).Nodup ∧
  (w.reservations.map ReservationS.id).Nodup ∧
  (∀ r ∈ w.reservations, r.is_active = true → 0 < r.ticket_quantity) ∧
  InventoryInv w eid

/-! ### Bookkeeping lemmas about the active-ticket sum -/

theorem activeSumL_cons (x : ReservationS) (l : List ReservationS) (k : Nat) :
    activeSumL (x :: l) k =
      (if (x.event_id == k && x.is_active) = true then x.ticket_quantity
        else 0) + activeSumL l k := by
  simp only [activeSumL, List.filter_cons]
  split
  · simp
  · simp

theorem activeSumL_append (l₁ l₂ : List ReservationS) (k : Nat) :
    activeSumL (l₁ ++ l₂) k = activeSumL l₁ k + activeSumL l₂ k := by
  simp [activeSumL, List.filter_append]

theorem activeSumL_nonneg (l : List ReservationS) (k : Nat)
    (h : ∀ x ∈ l, x.is_active = true → 0 < x.ticket_quantity) :
    0 ≤ activeSumL l k := by
  apply List.sum_nonneg
  intro q hq
  simp only [activeSumL, List.mem_map] at hq
  obtain ⟨x, hx, rfl⟩ := hq
  have hmem := List.mem_of_mem_filter hx
  have hpred := List.of_mem_filter hx
  simp only [Bool.and_eq_true] at hpred
  exact le_of_lt (h x hmem hpred.2)

theorem activeSumL_map_congr (k : Nat) (f : ReservationS → ReservationS)
    (l : List ReservationS)
    (h : ∀ x ∈ l,
      ((f x).event_id == k && (f x).is_active) =
        (x.event_id == k && x.is_active) ∧
      (f x).ticket_quantity = x.ticket_quantity) :
    activeSumL (l.map f) k = activeSumL l k := by
  induction l with
  | nil => rfl
  | cons x l ih =>
    have hx := h x (List.mem_cons_self x l)
    rw [List.map_cons, activeSumL_cons, activeSumL_cons, hx.1, hx.2,
      ih (fun y hy => h y (List.mem_cons_of_mem x hy))]

theorem activeSumL_map_id (k : Nat) (f : ReservationS → ReservationS)
    (l : List ReservationS) (h : ∀ x ∈ l, f x = x) :
    activeSumL (l.map f) k = activeSumL l k := by
  rw [List.map_congr_left h]
  simp

theorem activeSumL_replace_inactive (k : Nat) (r r₂ : ReservationS)
    (hpred : (r₂.event_id == k && r₂.is_active) = false)
    (l : List ReservationS) (hnd : (l.map ReservationS.id).Nodup)
    (hr : r ∈ l) (hract : (r.event_id == k && r.is_active) = true) :
    activeSumL (l.map (fun x => if x.id == r.id then r₂ else x)) k =
      activeSumL l k - r.ticket_quantity := by
  induction l with
  | nil => cases hr
  | cons x l ih =>
    rw [List.map_cons, activeSumL_cons, activeSumL_cons]
    rw [List.map_cons, List.nodup_cons] at hnd
    rcases List.mem_cons.mp hr with rfl | hrl
    · have hxid : (r.id == r.id) = true := by simp
      simp only [hxid, if_true]
      have htail : ∀ y ∈ l,
          (fun x => if x.id == r.id then r₂ else x) y = y := by
        intro y hy
        have hne : y.id ≠ r.id := by
          intro hcontra
          exact hnd.1 (hcontra ▸ List.mem_map_of_mem ReservationS.id hy)
        simp [hne]
      rw [List.map_congr_left htail]
      simp only [List.map_id']
      rw [hpred, hract]
      simp only [Bool.false_eq_true, if_false, if_true]
      omega
    · have hxid : (x.id == r.id) = false := by
        have hne : x.id ≠ r.id := by
          intro hcontra
          exact hnd.1 (hcontra.symm ▸ List.mem_map_of_mem ReservationS.id hrl)
        simp [hne]
      simp only [hxid, Bool.false_eq_true, if_false]
      rw [ih hnd.2 hrl]
      omega

/-- Elements of a list with `Nodup` ids are determined by their id. -/
theorem res_id_inj {l : List ReservationS}
    (hnd : (l.map ReservationS.id).Nodup) {a b : ReservationS}
    (ha : a ∈ l) (hb : b ∈ l) (hab : a.id = b.id) : a = b :=
  List.inj_on_of_nodup_map hnd ha hb hab

/-- Elements of an event list with `Nodup` ids are determined by their id. -/
theorem ev_id_inj {l : List EventS}
    (hnd : (l.map EventS.id).Nodup) {a b : EventS}
    (ha : a ∈ l) (hb : b ∈ l) (hab : a.id = b.id) : a = b :=
  List.inj_on_of_nodup_map hnd ha hb hab

theorem map_preserves_res_ids (f : ReservationS → ReservationS)
    (l : List ReservationS) (h : ∀ x ∈ l, (f x).id = x.id) :
    (l.map f).map ReservationS.id = l.map ReservationS.id := by
  rw [List.map_map]
  exact List.map_congr_left (fun x hx => h x hx)

theorem map_preserves_ev_ids (f : EventS → EventS)
    (l : List EventS) (h : ∀ x ∈ l, (f x).id = x.id) :
    (l.map f).map EventS.id = l.map EventS.id := by
  rw [List.map_map]
  exact List.map_congr_left (fun x hx => h x hx)

/-- The autoincrement id is strictly larger than every existing id. -/
theorem nextReservationId_fresh (w : World) :
    ∀ r ∈ w.reservations, r.id < w.nextReservationId := by
  unfold World.nextReservationId
  have : ∀ l : List ReservationS, ∀ r ∈ l,
      r.id ≤ l.foldr (fun r m => max r.id m) 0 := by
    intro l
    induction l with
    | nil => intro r hr; cases hr
    | cons x l ih =>
      intro r hr
      rcases List.mem_cons.mp hr with rfl | hrl
      · exact le_max_left _ _
      · exact le_trans (ih r hrl) (le_max_right _ _)
  intro r hr
  exact Nat.lt_succ_of_le (this w.reservations r hr)

/-- Cancelling one active reservation — releasing its tickets on its event
and replacing the row by an inactive row with the same id, event and
quantity — preserves the strengthened inventory invariant.  This is the
common effect of the user cancellation view and of one sweeper iteration. -/
theorem replace_cancel_strongInv (k : Nat) (w : World) (r r₂ : ReservationS)
    (hInv : StrongInv w k)
    (hr : r ∈ w.reservations) (hact : r.is_active = true)
    (hid : r₂.id = r.id) (hev2 : r₂.event_id = r.event_id)
    (hq2 : r₂.ticket_quantity = r.ticket_quantity)
    (hact2 : r₂.is_active = false) :
    StrongInv
      (World.mk
        (w.events.map (fun x =>
          if x.id == r.event_id then x.release_tickets r.ticket_quantity
          else x))
        (w.reservations.map (fun x => if x.id == r.id then r₂ else x))) k := by
  obtain ⟨hndE, hndR, hpos, hinv⟩ := hInv
  have hEids : (w.events.map (fun x =>
      if x.id == r.event_id then x.release_tickets r.ticket_quantity
      else x)).map EventS.id = w.events.map EventS.id := by
    apply map_preserves_ev_ids
    intro x _
    by_cases hc : x.id = r.event_id
    · simp [hc, EventS.release_tickets]
    · simp [hc]
  have hRids : (w.reservations.map
      (fun x => if x.id == r.id then r₂ else x)).map ReservationS.id =
      w.reservations.map ReservationS.id := by
    apply map_preserves_res_ids
    intro x _
    by_cases hc : x.id = r.id
    · simp [hc, hid]
    · simp [hc]
  have hnewpos : ∀ y ∈ w.reservations.map
      (fun x => if x.id == r.id then r₂ else x),
      y.is_active = true → 0 < y.ticket_quantity := by
    intro y hy hyact
    obtain ⟨x, hx, rfl⟩ := List.mem_map.mp hy
    by_cases hc : x.id = r.id
    · simp only [hc, beq_self_eq_true, if_true] at hyact
      rw [hact2] at hyact
      cases hyact
    · have hcb : (x.id == r.id) = false := by simp [hc]
      simp only [hcb, Bool.false_eq_true, if_false] at hyact ⊢
      exact hpos x hx hyact
  refine ⟨by rw [hEids]; exact hndE, by rw [hRids]; exact hndR, hnewpos, ?_⟩
  intro e' he' hek
  obtain ⟨x, hx, rfl⟩ := List.mem_map.mp he'
  by_cases hc : x.id = r.event_id
  · -- the invariant's event is the cancelled reservation's event
    have hcb : (x.id == r.event_id) = true := by simp [hc]
    simp only [hcb, if_true] at hek ⊢
    have hxk : x.id = k := hek
    have hkeq : r.event_id = k := by rw [← hc, hxk]
    obtain ⟨heq, h0, hcap⟩ := hinv x hx hxk
    have hsum2 : activeSumL (w.reservations.map
        (fun y => if y.id == r.id then r₂ else y)) k =
        activeSumL w.reservations k - r.ticket_quantity := by
      apply activeSumL_replace_inactive k r r₂ (by simp [hact2]) _ hndR hr
      simp [hkeq, hact]
    have hge : 0 ≤ activeSumL (w.reservations.map
        (fun y => if y.id == r.id then r₂ else y)) k :=
      activeSumL_nonneg _ _ hnewpos
    have hq : 0 < r.ticket_quantity := hpos r hr hact
    have hmin : min (x.available_tickets + r.ticket_quantity)
        x.total_capacity = x.available_tickets + r.ticket_quantity := by
      apply min_eq_left
      simp only [activeTicketSum] at heq
      omega
    have havail : (x.release_tickets r.ticket_quantity).available_tickets =
        x.available_tickets + r.ticket_quantity := by
      rw [EventS.release_tickets]
      exact hmin
    have hcap2 : (x.release_tickets r.ticket_quantity).total_capacity =
        x.total_capacity := rfl
    simp only [activeTicketSum] at heq ⊢
    rw [havail, hcap2, hsum2]
    refine ⟨by omega, by omega, by omega⟩
  · -- the invariant's event is not the cancelled reservation's event
    have hcb : (x.id == r.event_id) = false := by simp [hc]
    simp only [hcb, Bool.false_eq_true, if_false] at hek ⊢
    have hkne : k ≠ r.event_id := by rw [← hek]; exact hc
    have hsum : activeSumL (w.reservations.map
        (fun y => if y.id == r.id then r₂ else y)) k =
        activeSumL w.reservations k := by
      apply activeSumL_map_congr
      intro y hy
      by_cases hd : y.id = r.id
      · have hyr : y = r := res_id_inj hndR hy hr hd
        have h2 : (r.event_id == k) = false := by
          simp
          exact fun h => hkne h.symm
        have hdb : (y.id == r.id) = true := by simp [hd]
        constructor
        · simp only [hdb, if_true]
          rw [hyr, hact2, hev2, h2]
          simp
        · simp only [hdb, if_true]
          rw [hq2, hyr]
      · have hdb : (y.id == r.id) = false := by simp [hd]
        simp [hdb]
    have hgoal := hinv x hx hek
    simp only [activeTicketSum] at hgoal ⊢
    rw [hsum]
    exact hgoal

/-- Unfolding of the `can_reserve_tickets` guard. -/
theorem can_reserve_tickets_iff (e : EventS) (now q : Int) :
    e.can_reserve_tickets now q = true ↔
      (e.is_active = true ∧ e.event_date > now ∧ 0 < q ∧
        q ≤ e.available_tickets) := by
  simp only [EventS.can_reserve_tickets, EventS.is_upcoming, Bool.and_eq_true,
    decide_eq_true_eq]
  constructor
  · rintro ⟨⟨⟨ha, hu⟩, hq⟩, hp⟩
    exact ⟨ha, hu, hp, hq⟩
  · rintro ⟨ha, hu, hp, hq⟩
    exact ⟨⟨⟨ha, hu⟩, hq⟩, hp⟩

/-- `reserve_tickets` on a failing guard. -/
theorem reserve_tickets_of_not (e : EventS) (now q : Int)
    (h : e.can_reserve_tickets now q = false) :
    e.reserve_tickets now q = (e, false) := by
  simp [EventS.reserve_tickets, h]

/-- `reserve_tickets` on a passing guard. -/
theorem reserve_tickets_of_can (e : EventS) (now q : Int)
    (h : e.can_reserve_tickets now q = true) :
    e.reserve_tickets now q =
      ({ e with available_tickets := e.available_tickets - q }, true) := by
  simp [EventS.reserve_tickets, h]

/-- Unfolding of the `can_be_cancelled` guard. -/
theorem can_be_cancelled_iff (r : ReservationS) (e : EventS) (now : Int) :
    r.can_be_cancelled e now = true ↔
      (r.reservation_status ≠ .cancelled ∧ e.event_date > now) := by
  simp only [ReservationS.can_be_cancelled, EventS.is_upcoming,
    Bool.and_eq_true, Bool.not_eq_true', beq_eq_false_iff_ne,
    decide_eq_true_eq]

/-- `cancel_reservation` on a passing guard. -/
theorem cancel_reservation_of_can (r : ReservationS) (e : EventS) (now : Int)
    (h : r.can_be_cancelled e now = true) :
    r.cancel_reservation e now =
      ({ r with
          reservation_status := .cancelled
          payment_status :=
            if r.payment_status == .completed then .refunded
            else r.payment_status },
        e.release_tickets r.ticket_quantity, true) := by
  simp [ReservationS.cancel_reservation, h]

/-- `cancel_reservation` on a failing guard. -/
theorem cancel_reservation_of_not (r : ReservationS) (e : EventS) (now : Int)
    (h : r.can_be_cancelled e now = false) :
    r.cancel_reservation e now = (r, e, false) := by
  simp [ReservationS.cancel_reservation, h]

/-- A reservation that is not CANCELLED is active (PENDING or CONFIRMED). -/
theorem is_active_of_not_cancelled (r : ReservationS)
    (h : r.reservation_status ≠ .cancelled) : r.is_active = true := by
  unfold ReservationS.is_active
  cases hs : r.reservation_status with
  | pending => rfl
  | confirmed => rfl
  | cancelled => exact absurd hs h

/-- `setEvent` never changes the list of event ids. -/
theorem setEvent_ids (w : World) (e' : EventS) :
    (w.setEvent e').events.map EventS.id = w.events.map EventS.id := by
  unfold World.setEvent
  apply map_preserves_ev_ids
  intro x _
  by_cases hc : x.id = e'.id
  · simp [hc]
  · simp [hc]

/-- A reservation found by `findReservation` is a member of the table. -/
theorem findReservation_mem {w : World} {rid user : Nat} {r : ReservationS}
    (h : w.findReservation rid user = some r) : r ∈ w.reservations :=
  List.mem_of_find?_eq_some h

/-- A reservation found by `findReservation` has the looked-up id. -/
theorem findReservation_id {w : World} {rid user : Nat} {r : ReservationS}
    (h : w.findReservation rid user = some r) : r.id = rid := by
  have := List.find?_some h
  simp only [Bool.and_eq_true, beq_iff_eq] at this
  exact this.1

/-- An event found by `findEvent` is a member with the looked-up id. -/
theorem findEvent_mem_id {w : World} {eid : Nat} {e : EventS}
    (h : w.findEvent eid = some e) : e ∈ w.events ∧ e.id = eid := by
  refine ⟨List.mem_of_find?_eq_some h, ?_⟩
  have := List.find?_some h
  simpa using this

/-- Processing a payment preserves the strengthened inventory invariant. -/
theorem pay_strongInv (k : Nat) (w : World) (user rid : Nat) (ref : String)
    (h : StrongInv w k) : StrongInv (process_payment w user rid ref).1 k := by
  unfold process_payment
  split
  · exact h
  · rename_i r hf
    split
    · exact h
    · split
      · exact h
      · rename_i hpend _
        simp only [Bool.not_eq_eq_eq_not, Bool.not_true, beq_eq_false_iff_ne,
          ne_eq, Decidable.not_not] at hpend
        have hrp : r.reservation_status = .pending := by
          by_contra hc
          simp [hc] at hpend
        have hrmem : r ∈ w.reservations := findReservation_mem hf
        obtain ⟨hndE, hndR, hpos, hinv⟩ := h
        have hids : ((w.mapReservation r.id
            (fun x => x.confirm_payment ref)).reservations).map
            ReservationS.id = w.reservations.map ReservationS.id := by
          unfold World.mapReservation
          apply map_preserves_res_ids
          intro x _
          by_cases hc : x.id = r.id
          · simp [hc, ReservationS.confirm_payment]
          · simp [hc]
        refine ⟨hndE, by rw [hids]; exact hndR, ?_, ?_⟩
        · intro y hy hyact
          unfold World.mapReservation at hy
          obtain ⟨x, hx, rfl⟩ := List.mem_map.mp hy
          by_cases hc : x.id = r.id
          · have hxr : x = r := res_id_inj hndR hx hrmem hc
            have hcb : (x.id == r.id) = true := by simp [hc]
            simp only [hcb, if_true]
            have : (x.confirm_payment ref).ticket_quantity =
                x.ticket_quantity := rfl
            rw [this, hxr]
            apply hpos r hrmem
            exact is_active_of_not_cancelled r (by rw [hrp]; intro hc2; cases hc2)
          · have hcb : (x.id == r.id) = false := by simp [hc]
            simp only [hcb, Bool.false_eq_true, if_false] at hyact ⊢
            exact hpos x hx hyact
        · intro e₂ he₂ hk
          have hsum : activeSumL ((w.mapReservation r.id
              (fun x => x.confirm_payment ref)).reservations) k =
              activeSumL w.reservations k := by
            unfold World.mapReservation
            apply activeSumL_map_congr
            intro y hy
            by_cases hc : y.id = r.id
            · have hyr : y = r := res_id_inj hndR hy hrmem hc
              have hcb : (y.id == r.id) = true := by simp [hc]
              simp only [hcb, if_true]
              constructor
              · have h1 : (y.confirm_payment ref).event_id = y.event_id := rfl
                have h2 : (y.confirm_payment ref).is_active = true := rfl
                rw [h1, h2, hyr]
                have h3 : r.is_active = true :=
                  is_active_of_not_cancelled r
                    (by rw [hrp]; intro hc2; cases hc2)
                rw [h3]
              · rfl
            · have hcb : (y.id == r.id) = false := by simp [hc]
              simp [hcb]
          have hgoal := hinv e₂ he₂ hk
          simp only [activeTicketSum] at hgoal ⊢
          rw [hsum]
          exact hgoal

/-- Creating a reservation preserves the strengthened inventory invariant. -/
theorem create_strongInv (k : Nat) (w : World) (user eid : Nat)
    (q now : Int) (h : StrongInv w k) :
    StrongInv (create_reservation w user eid q now).1 k := by
  unfold create_reservation
  split
  · exact h
  · split
    · exact h
    · rename_i hq10 e hf
      split
      · exact h
      · split
        · exact h
        · rename_i hact hcan
          simp only [Bool.not_eq_eq_eq_not, Bool.not_true,
            Bool.not_eq_true] at hact hcan
          have hcan' : e.can_reserve_tickets now q = true := by
            revert hcan
            cases e.can_reserve_tickets now q <;> simp
          obtain ⟨he_act, he_up, hqpos, hqle⟩ :=
            (can_reserve_tickets_iff e now q).mp hcan'
          obtain ⟨hemem, heid⟩ := findEvent_mem_id hf
          obtain ⟨hndE, hndR, hpos, hinv⟩ := h
          have hres1 : (e.reserve_tickets now q).1 =
              { e with available_tickets := e.available_tickets - q } := by
            rw [reserve_tickets_of_can e now q hcan']
          have hsum_app : ∀ m : Nat,
              activeSumL (w.reservations ++ [newReservation w user e q now])
                  m =
                activeSumL w.reservations m +
                  (if e.id = m then q else 0) := by
            intro m
            rw [activeSumL_append, activeSumL_cons]
            have hone : activeSumL [] m = 0 := rfl
            rw [hone]
            have hactive : (newReservation w user e q now).is_active =
                true := rfl
            have hev : (newReservation w user e q now).event_id = e.id := rfl
            have hqq : (newReservation w user e q now).ticket_quantity =
                q := rfl
            rw [hactive, hev, hqq]
            by_cases hm : e.id = m
            · simp [hm]
            · simp [hm]
          refine ⟨?_, ?_, ?_, ?_⟩
          · rw [setEvent_ids]
            exact hndE
          · rw [List.map_append]
            apply List.Nodup.append
            · exact hndR
            · simp
            · intro a ha hb
              simp only [List.map_cons, List.map_nil,
                List.mem_singleton] at hb
              obtain ⟨x, hx, rfl⟩ := List.mem_map.mp ha
              have hfresh := nextReservationId_fresh w x hx
              have hb' : x.id = w.nextReservationId := hb
              omega
          · intro y hy _
            rcases List.mem_append.mp hy with hy | hy
            · have hya : y.is_active = true := by assumption
              exact hpos y hy hya
            · simp only [List.mem_singleton] at hy
              rw [hy]
              exact hqpos
          · intro e₂ he₂ hk
            unfold World.setEvent at he₂
            obtain ⟨x, hx, rfl⟩ := List.mem_map.mp he₂
            by_cases hc : x.id = (e.reserve_tickets now q).1.id
            · have hc' : x.id = e.id := by
                rw [hc, hres1]
              have hcb : (x.id == (e.reserve_tickets now q).1.id) = true := by
                simp [hc]
              simp only [hcb, if_true] at hk ⊢
              have hkid : k = e.id := by
                rw [← hk, hres1]
              obtain ⟨heq, h0, hcap⟩ := hinv e hemem (by rw [hkid])
              simp only [activeTicketSum] at heq
              rw [hres1]
              simp only [activeTicketSum]
              rw [hsum_app k]
              rw [if_pos hkid.symm]
              refine ⟨by omega, by omega, by omega⟩
            · have hcb : (x.id == (e.reserve_tickets now q).1.id) =
                  false := by simp [hc]
              simp only [hcb, Bool.false_eq_true, if_false] at hk ⊢
              have hkne : k ≠ e.id := by
                rw [← hk]
                intro hcon
                apply hc
                rw [hcon, hres1]
              obtain ⟨heq, h0, hcap⟩ := hinv x hx hk
              simp only [activeTicketSum] at heq
              simp only [activeTicketSum]
              rw [hsum_app k]
              rw [if_neg (fun hcon => hkne hcon.symm)]
              refine ⟨by omega, by omega, by omega⟩

/-- User cancellation preserves the strengthened inventory invariant. -/
theorem cancel_strongInv (k : Nat) (w : World) (user rid : Nat) (now : Int)
    (h : StrongInv w k) :
    StrongInv (cancel_reservation_view w user rid now).1 k := by
  unfold cancel_reservation_view
  split
  · exact h
  · rename_i r hf
    split
    · exact h
    · rename_i e hfe
      split
      · exact h
      · rename_i hcan
        simp only [Bool.not_eq_eq_eq_not, Bool.not_true,
          Bool.not_eq_true] at hcan
        have hcan' : r.can_be_cancelled e now = true := by
          revert hcan
          cases r.can_be_cancelled e now <;> simp
        obtain ⟨hnc, hup⟩ := (can_be_cancelled_iff r e now).mp hcan'
        have hract : r.is_active = true := is_active_of_not_cancelled r hnc
        have hrmem : r ∈ w.reservations := findReservation_mem hf
        obtain ⟨hemem, heid⟩ := findEvent_mem_id hfe
        have hcr := cancel_reservation_of_can r e now hcan'
        obtain ⟨hndE, hndR, hpos, hinv⟩ := h
        have hlem := replace_cancel_strongInv k w r
          (r.cancel_reservation e now).1
          ⟨hndE, hndR, hpos, hinv⟩ hrmem hract
          (by rw [hcr]) (by rw [hcr]) (by rw [hcr])
          (by rw [hcr]; rfl)
        show StrongInv (World.mk
          (w.events.map (fun x =>
            if x.id == (r.cancel_reservation e now).2.1.id then
              (r.cancel_reservation e now).2.1 else x))
          (w.reservations.map (fun x =>
            if x.id == r.id then (r.cancel_reservation e now).1 else x))) k
        have hX : (r.cancel_reservation e now).2.1 =
            e.release_tickets r.ticket_quantity := by rw [hcr]
        have hmaps : w.events.map (fun x =>
            if x.id == (r.cancel_reservation e now).2.1.id then
              (r.cancel_reservation e now).2.1 else x) =
            w.events.map (fun x =>
              if x.id == r.event_id then x.release_tickets r.ticket_quantity
              else x) := by
          apply List.map_congr_left
          intro x hx
          have hXid : (r.cancel_reservation e now).2.1.id = r.event_id := by
            rw [hX]
            have : (e.release_tickets r.ticket_quantity).id = e.id := rfl
            rw [this, heid]
          by_cases hc : x.id = r.event_id
          · have hxe : x = e := ev_id_inj hndE hx hemem (by rw [hc, heid])
            have hcb1 : (x.id == (r.cancel_reservation e now).2.1.id) =
                true := by simp [hXid, hc]
            have hcb2 : (x.id == r.event_id) = true := by simp [hc]
            rw [hcb1, hcb2]
            simp only [if_true]
            rw [hX, hxe]
          · have hcb1 : (x.id == (r.cancel_reservation e now).2.1.id) =
                false := by simp [hXid, hc]
            have hcb2 : (x.id == r.event_id) = false := by simp [hc]
            rw [hcb1, hcb2]
            simp
        rw [hmaps]
        exact hlem

/-- One sweeper iteration preserves the strengthened inventory invariant. -/
theorem sweepStep_strongInv (k : Nat) (w : World) (r : ReservationS)
    (h : StrongInv w k) (hr : r ∈ w.reservations)
    (hract : r.is_active = true) :
    StrongInv (sweepStep w r) k := by
  obtain ⟨hndE, hndR, hpos, hinv⟩ := h
  unfold sweepStep
  split
  · have hmapres : w.reservations.map (fun x =>
        if x.id == r.id then { x with reservation_status := .cancelled }
        else x) =
        w.reservations.map (fun x =>
          if x.id == r.id then
            { r with reservation_status := ReservationStatus.cancelled }
          else x) := by
      apply List.map_congr_left
      intro x hx
      by_cases hc : x.id = r.id
      · have hxe : x = r := res_id_inj hndR hx hr hc
        rw [hxe]
      · simp [hc]
    rw [hmapres]
    exact replace_cancel_strongInv k w r
      { r with reservation_status := ReservationStatus.cancelled }
      ⟨hndE, hndR, hpos, hinv⟩ hr hract rfl rfl rfl rfl
  · exact ⟨hndE, hndR, hpos, hinv⟩

/-- A reservation with a different id survives a sweeper iteration
unchanged. -/
theorem sweepStep_mem_preserved (w : World) (r r' : ReservationS)
    (hin : r' ∈ w.reservations) (hne : r'.id ≠ r.id) :
    r' ∈ (sweepStep w r).reservations := by
  unfold sweepStep
  split
  · apply List.mem_map.mpr
    refine ⟨r', hin, ?_⟩
    simp [hne]
  · exact hin

/-- Folding sweeper iterations over pending reservations of the table
preserves the strengthened inventory invariant. -/
theorem sweepFold_strongInv (k : Nat) :
    ∀ (rs : List ReservationS) (w : World), StrongInv w k →
    (∀ r ∈ rs, r ∈ w.reservations ∧ r.reservation_status = .pending) →
    (rs.map ReservationS.id).Nodup →
    StrongInv (rs.foldl sweepStep w) k := by
  intro rs
  induction rs with
  | nil =>
    intro w h _ _
    exact h
  | cons r rs ih =>
    intro w h hmem hnd
    rw [List.foldl_cons]
    rw [List.map_cons, List.nodup_cons] at hnd
    have hrw := hmem r (List.mem_cons_self r rs)
    have hract : r.is_active = true := by
      apply is_active_of_not_cancelled
      intro hc
      rw [hrw.2] at hc
      cases hc
    have hstep := sweepStep_strongInv k w r h hrw.1 hract
    apply ih (sweepStep w r) hstep _ hnd.2
    intro r' hr'
    have h2 := hmem r' (List.mem_cons_of_mem r hr')
    have hne : r'.id ≠ r.id := by
      intro hcon
      exact hnd.1 (hcon ▸ List.mem_map_of_mem ReservationS.id hr')
    exact ⟨sweepStep_mem_preserved w r r' h2.1 hne, h2.2⟩

/-- The expiry sweep preserves the strengthened inventory invariant. -/
theorem sweep_strongInv (k : Nat) (now : Int) (w : World)
    (h : StrongInv w k) :
    StrongInv (cleanup_expired_reservations now w) k := by
  unfold cleanup_expired_reservations
  apply sweepFold_strongInv k _ w h
  · intro r hr
    refine ⟨List.mem_of_mem_filter hr, ?_⟩
    have hp := List.of_mem_filter hr
    simp only [isExpiredPending, Bool.and_eq_true, beq_iff_eq] at hp
    exact hp.1
  · have hsub : ((w.reservations.filter (isExpiredPending now)).map
        ReservationS.id).Sublist (w.reservations.map ReservationS.id) :=
      (List.filter_sublist _).map _
    exact hsub.nodup h.2.1

/-- Pointwise congruence for `List.any`. -/
theorem any_congr_mem {α : Type} (l : List α) (p q : α → Bool)
    (h : ∀ x ∈ l, p x = q x) : l.any p = l.any q := by
  induction l with
  | nil => rfl
  | cons x l ih =>
    simp only [List.any_cons]
    rw [h x (List.mem_cons_self x l),
      ih (fun y hy => h y (List.mem_cons_of_mem x hy))]

/-- A sweeper iteration does not change which event ids answer an id
query. -/
theorem sweepStep_any_event (w : World) (r₀ : ReservationS) (m : Nat) :
    ((sweepStep w r₀).events.any (fun e => e.id == m)) =
      (w.events.any (fun e => e.id == m)) := by
  unfold sweepStep
  split
  · rw [List.any_map]
    apply any_congr_mem
    intro x _
    by_cases hc : x.id = r₀.event_id
    · simp [hc, EventS.release_tickets, Function.comp]
    · simp [hc, Function.comp]
  · rfl

/-- Folded sweeper iterations do not change which event ids answer an id
query. -/
theorem sweepFold_any_event (m : Nat) :
    ∀ (rs : List ReservationS) (w : World),
      (((rs.foldl sweepStep w).events.any (fun e => e.id == m))) =
        (w.events.any (fun e => e.id == m)) := by
  intro rs
  induction rs with
  | nil => intro w; rfl
  | cons r rs ih =>
    intro w
    rw [List.foldl_cons, ih (sweepStep w r), sweepStep_any_event]

/-- Every reservation row after a sweeper iteration descends from an
original row: same id, creation time and event, with the status either
untouched or forced to CANCELLED. -/
theorem sweepStep_origin (w : World) (r : ReservationS) (x' : ReservationS)
    (h : x' ∈ (sweepStep w r).reservations) :
    ∃ x ∈ w.reservations, x.id = x'.id ∧ x.created_at = x'.created_at ∧
      x.event_id = x'.event_id ∧
      (x'.reservation_status = x.reservation_status ∨
        x'.reservation_status = .cancelled) := by
  unfold sweepStep at h
  split at h
  · obtain ⟨x, hx, rfl⟩ := List.mem_map.mp h
    by_cases hc : x.id = r.id
    · refine ⟨x, hx, ?_⟩
      simp [hc]
    · refine ⟨x, hx, ?_⟩
      simp [hc]
  · exact ⟨x', h, rfl, rfl, rfl, Or.inl rfl⟩

/-- Fold version of `sweepStep_origin`. -/
theorem sweepFold_origin :
    ∀ (rs : List ReservationS) (w : World) (x' : ReservationS),
      x' ∈ (rs.foldl sweepStep w).reservations →
      ∃ x ∈ w.reservations, x.id = x'.id ∧ x.created_at = x'.created_at ∧
        x.event_id = x'.event_id ∧
        (x'.reservation_status = x.reservation_status ∨
          x'.reservation_status = .cancelled) := by
  intro rs
  induction rs with
  | nil =>
    intro w x' h
    exact ⟨x', h, rfl, rfl, rfl, Or.inl rfl⟩
  | cons r rs ih =>
    intro w x' h
    rw [List.foldl_cons] at h
    obtain ⟨x₁, hx₁, hid, hcr, hev, hst⟩ := ih (sweepStep w r) x' h
    obtain ⟨x, hx, hid2, hcr2, hev2, hst2⟩ := sweepStep_origin w r x₁ hx₁
    refine ⟨x, hx, hid2.trans hid, hcr2.trans hcr, hev2.trans hev, ?_⟩
    rcases hst with h1 | h1
    · rcases hst2 with h2 | h2
      · exact Or.inl (h1.trans h2)
      · exact Or.inr (h1.trans h2)
    · exact Or.inr h1

/-- Once every row with a given id is CANCELLED, folded sweeper iterations
keep it so. -/
theorem sweepFold_all_cancelled (rs : List ReservationS) (w : World) (i : Nat)
    (h : ∀ x ∈ w.reservations, x.id = i →
      x.reservation_status = .cancelled) :
    ∀ x' ∈ (rs.foldl sweepStep w).reservations, x'.id = i →
      x'.reservation_status = .cancelled := by
  intro x' hx' hid
  obtain ⟨x, hx, hid2, _, _, hst⟩ := sweepFold_origin rs w x' hx'
  rcases hst with h1 | h1
  · rw [h1]
    exact h x hx (hid2.trans hid)
  · exact h1

/-- A reservation of the sweep's work list whose event row exists ends up
CANCELLED in every row carrying its id. -/
theorem sweepFold_processed_cancelled :
    ∀ (rs : List ReservationS) (w : World) (r : ReservationS), r ∈ rs →
      (w.events.any (fun e => e.id == r.event_id)) = true →
      ∀ x' ∈ (rs.foldl sweepStep w).reservations, x'.id = r.id →
        x'.reservation_status = .cancelled := by
  intro rs
  induction rs with
  | nil =>
    intro w r hr
    cases hr
  | cons r₀ rs ih =>
    intro w r hr hev x' hx' hid
    rw [List.foldl_cons] at hx'
    rcases List.mem_cons.mp hr with rfl | hr
    · have hstep : ∀ x ∈ (sweepStep w r).reservations, x.id = r.id →
          x.reservation_status = .cancelled := by
        intro x hx hxid
        unfold sweepStep at hx
        rw [if_pos hev] at hx
        obtain ⟨x₀, hx₀, rfl⟩ := List.mem_map.mp hx
        by_cases hc : x₀.id = r.id
        · simp [hc]
        · have hcb : (x₀.id == r.id) = false := by simp [hc]
          simp only [hcb, Bool.false_eq_true, if_false] at hxid ⊢
          exact absurd hxid hc
      exact sweepFold_all_cancelled rs (sweepStep w r) r.id hstep x' hx' hid
    · apply ih (sweepStep w r₀) r hr _ x' hx' hid
      rw [sweepStep_any_event]
      exact hev

/-- Folding over a list of fixed points is the identity. -/
theorem sweepFold_fixed (v : World) :
    ∀ rs : List ReservationS, (∀ r ∈ rs, sweepStep v r = v) →
      rs.foldl sweepStep v = v := by
  intro rs
  induction rs with
  | nil => intro _; rfl
  | cons r rs ih =>
    intro h
    rw [List.foldl_cons, h r (List.mem_cons_self r rs)]
    exact ih (fun r' hr' => h r' (List.mem_cons_of_mem r hr'))

/-- `cancel_reservation` never changes the reservation id. -/
theorem cancel_result_id (r : ReservationS) (e : EventS) (now : Int) :
    (r.cancel_reservation e now).1.id = r.id := by
  unfold ReservationS.cancel_reservation
  split <;> rfl

/-- `process_payment` never changes the list of reservation ids. -/
theorem pay_res_ids (w : World) (user rid : Nat) (ref : String) :
    (((process_payment w user rid ref).1.reservations).map
      ReservationS.id) = w.reservations.map ReservationS.id := by
  unfold process_payment
  split
  · rfl
  · rename_i r hf
    split
    · rfl
    · split
      · rfl
      · unfold World.mapReservation
        apply map_preserves_res_ids
        intro x _
        by_cases hc : x.id = r.id
        · simp [hc, ReservationS.confirm_payment]
        · simp [hc]

/-- `cancel_reservation_view` never changes the list of reservation ids. -/
theorem cancel_view_res_ids (w : World) (user rid : Nat) (now : Int) :
    (((cancel_reservation_view w user rid now).1.reservations).map
      ReservationS.id) = w.reservations.map ReservationS.id := by
  unfold cancel_reservation_view
  split
  · rfl
  · rename_i r hf
    split
    · rfl
    · rename_i e hfe
      split
      · rfl
      · unfold World.mapReservation World.setEvent
        apply map_preserves_res_ids
        intro x _
        by_cases hc : x.id = r.id
        · simp [hc, cancel_result_id]
        · simp [hc]

/-- One sweeper iteration never changes the list of reservation ids. -/
theorem sweepStep_res_ids (w : World) (r : ReservationS) :
    (((sweepStep w r).reservations).map ReservationS.id) =
      w.reservations.map ReservationS.id := by
  unfold sweepStep
  split
  · apply map_preserves_res_ids
    intro x _
    by_cases hc : x.id = r.id
    · simp [hc]
    · simp [hc]
  · rfl

/-- The expiry sweep never changes the list of reservation ids. -/
theorem sweepFold_res_ids :
    ∀ (rs : List ReservationS) (w : World),
      (((rs.foldl sweepStep w).reservations).map ReservationS.id) =
        w.reservations.map ReservationS.id := by
  intro rs
  induction rs with
  | nil => intro w; rfl
  | cons r rs ih =>
    intro w
    rw [List.foldl_cons, ih, sweepStep_res_ids]

/-- Reservation ids after `create_reservation`: unchanged, or with the fresh
autoincrement id appended. -/
theorem create_res_ids (w : World) (user eid : Nat) (q now : Int) :
    (((create_reservation w user eid q now).1.reservations).map
        ReservationS.id) = w.reservations.map ReservationS.id ∨
    (((create_reservation w user eid q now).1.reservations).map
        ReservationS.id) =
      w.reservations.map ReservationS.id ++ [w.nextReservationId] := by
  unfold create_reservation
  split
  · left; rfl
  · split
    · left; rfl
    · split
      · left; rfl
      · split
        · left; rfl
        · right
          rw [List.map_append]
          rfl

/-- Existing rows are untouched by `create_reservation`. -/
theorem create_row_unchanged (w : World) (user eid : Nat) (q now : Int)
    (hnd : (w.reservations.map ReservationS.id).Nodup) :
    ∀ r ∈ w.reservations,
    ∀ r' ∈ (create_reservation w user eid q now).1.reservations,
      r'.id = r.id → r' = r := by
  intro r hr r' hr' hid
  revert hr'
  unfold create_reservation
  split
  · intro hr'; exact res_id_inj hnd hr' hr hid
  · split
    · intro hr'; exact res_id_inj hnd hr' hr hid
    · split
      · intro hr'; exact res_id_inj hnd hr' hr hid
      · split
        · intro hr'; exact res_id_inj hnd hr' hr hid
        · intro hr'
          rcases List.mem_append.mp hr' with hr' | hr'
          · exact res_id_inj hnd hr' hr hid
          · simp only [List.mem_singleton] at hr'
            exfalso
            have hfresh := nextReservationId_fresh w r hr
            have : r'.id = w.nextReservationId := by rw [hr']; rfl
            omega

/-- `process_payment` either leaves a row alone or confirms a PENDING
row. -/
theorem pay_row_status (w : World) (user rid : Nat) (ref : String)
    (hnd : (w.reservations.map ReservationS.id).Nodup) :
    ∀ r ∈ w.reservations,
    ∀ r' ∈ (process_payment w user rid ref).1.reservations,
      r'.id = r.id → r' = r ∨
        (r.reservation_status = .pending ∧
          r'.reservation_status = .confirmed) := by
  intro r hr r' hr' hid
  revert hr'
  unfold process_payment
  split
  · intro hr'; exact Or.inl (res_id_inj hnd hr' hr hid)
  · rename_i r₀ hf
    split
    · intro hr'; exact Or.inl (res_id_inj hnd hr' hr hid)
    · split
      · intro hr'; exact Or.inl (res_id_inj hnd hr' hr hid)
      · rename_i hpend _
        simp only [Bool.not_eq_eq_eq_not, Bool.not_true,
          beq_eq_false_iff_ne, ne_eq, Decidable.not_not] at hpend
        have hrp : r₀.reservation_status = .pending := by
          by_contra hc
          simp [hc] at hpend
        intro hr'
        unfold World.mapReservation at hr'
        obtain ⟨x, hx, rfl⟩ := List.mem_map.mp hr'
        by_cases hc : x.id = r₀.id
        · have hcb : (x.id == r₀.id) = true := by simp [hc]
          simp only [hcb, if_true, ReservationS.confirm_payment] at hid ⊢
          have hxr : x = r := res_id_inj hnd hx hr hid
          have hx0 : x = r₀ :=
            res_id_inj hnd hx (findReservation_mem hf) hc
          right
          constructor
          · rw [← hxr, hx0]; exact hrp
          · trivial
        · have hcb : (x.id == r₀.id) = false := by simp [hc]
          simp only [hcb, Bool.false_eq_true, if_false] at hid ⊢
          exact Or.inl (res_id_inj hnd hx hr hid)

/-- `cancel_reservation_view` either leaves a row alone or cancels a
not-yet-cancelled row. -/
theorem cancel_row_status (w : World) (user rid : Nat) (now : Int)
    (hnd : (w.reservations.map ReservationS.id).Nodup) :
    ∀ r ∈ w.reservations,
    ∀ r' ∈ (cancel_reservation_view w user rid now).1.reservations,
      r'.id = r.id → r' = r ∨
        (r.reservation_status ≠ .cancelled ∧
          r'.reservation_status = .cancelled) := by
  intro r hr r' hr' hid
  revert hr'
  unfold cancel_reservation_view
  split
  · intro hr'; exact Or.inl (res_id_inj hnd hr' hr hid)
  · rename_i r₀ hf
    split
    · intro hr'; exact Or.inl (res_id_inj hnd hr' hr hid)
    · rename_i e hfe
      split
      · intro hr'; exact Or.inl (res_id_inj hnd hr' hr hid)
      · rename_i hcan
        simp only [Bool.not_eq_eq_eq_not, Bool.not_true,
          Bool.not_eq_true] at hcan
        have hcan' : r₀.can_be_cancelled e now = true := by
          revert hcan
          cases r₀.can_be_cancelled e now <;> simp
        obtain ⟨hnc, _⟩ := (can_be_cancelled_iff r₀ e now).mp hcan'
        intro hr'
        unfold World.mapReservation World.setEvent at hr'
        obtain ⟨x, hx, rfl⟩ := List.mem_map.mp hr'
        by_cases hc : x.id = r₀.id
        · have hcb : (x.id == r₀.id) = true := by simp [hc]
          simp only [hcb, if_true] at hid ⊢
          have hr0r : r₀ = r := by
            apply res_id_inj hnd (findReservation_mem hf) hr
            rw [← cancel_result_id r₀ e now]
            exact hid
          right
          refine ⟨by rw [← hr0r]; exact hnc, ?_⟩
          rw [cancel_reservation_of_can r₀ e now hcan']
        · have hcb : (x.id == r₀.id) = false := by simp [hc]
          simp only [hcb, Bool.false_eq_true, if_false] at hid ⊢
          exact Or.inl (res_id_inj hnd hx hr hid)

/-- The sweep either keeps a row's status or cancels it. -/
theorem sweep_row_status (w : World) (now : Int)
    (hnd : (w.reservations.map ReservationS.id).Nodup) :
    ∀ r ∈ w.reservations,
    ∀ r' ∈ (cleanup_expired_reservations now w).reservations,
      r'.id = r.id →
      r'.reservation_status = r.reservation_status ∨
        r'.reservation_status = .cancelled := by
  intro r hr r' hr' hid
  unfold cleanup_expired_reservations at hr'
  obtain ⟨x, hx, hxid, _, _, hst⟩ := sweepFold_origin _ w r' hr'
  have hxr : x = r := res_id_inj hnd hx hr (hxid.trans hid)
  rw [← hxr]
  exact hst

/-! ### Theorems -/

/-- C9: the expiry sweep is idempotent — running
`cleanup_expired_reservations` twice with the same clock yields exactly the
state of one run, because after the first run every selectable reservation
is no longer PENDING (and the per-item steps that the second run could
still select, which arise only from reservations whose event row is
missing, are no-ops). -/
theorem sweep_idempotent (now : Int) (w : World) :
    cleanup_expired_reservations now (cleanup_expired_reservations now w) =
      cleanup_expired_reservations now w := by
  have hsteps : ∀ r' ∈ (cleanup_expired_reservations
      now w).reservations.filter (isExpiredPending now),
      sweepStep (cleanup_expired_reservations now w) r' =
        cleanup_expired_reservations now w := by
    intro r' hr'
    have hmem := List.mem_of_mem_filter hr'
    have hp := List.of_mem_filter hr'
    simp only [isExpiredPending, Bool.and_eq_true, beq_iff_eq,
      decide_eq_true_eq] at hp
    unfold cleanup_expired_reservations at hmem
    obtain ⟨x, hx, hid, hcr, hev, hst⟩ := sweepFold_origin _ w r' hmem
    have hxpend : x.reservation_status = .pending := by
      rcases hst with h1 | h1
      · rw [← h1]
        exact hp.1
      · rw [h1] at hp
        exact absurd hp.1 (by decide)
    have hxsel : x ∈ w.reservations.filter (isExpiredPending now) := by
      apply List.mem_filter.mpr
      refine ⟨hx, ?_⟩
      simp only [isExpiredPending, Bool.and_eq_true, beq_iff_eq,
        decide_eq_true_eq]
      exact ⟨hxpend, by rw [hcr]; exact hp.2⟩
    have hevfalse : (w.events.any (fun e => e.id == x.event_id)) = false := by
      cases hb : w.events.any (fun e => e.id == x.event_id) with
      | false => rfl
      | true =>
        have hc := sweepFold_processed_cancelled _ w x hxsel hb r' hmem
          hid.symm
        exact absurd (hp.1.symm.trans hc) (by decide)
    have hev2 : ((cleanup_expired_reservations now w).events.any
        (fun e => e.id == r'.event_id)) = false := by
      unfold cleanup_expired_reservations
      rw [sweepFold_any_event]
      rw [← hev]
      exact hevfalse
    unfold sweepStep
    simp only [hev2, Bool.false_eq_true, if_false]
  show ((cleanup_expired_reservations now w).reservations.filter
      (isExpiredPending now)).foldl sweepStep
      (cleanup_expired_reservations now w) =
    cleanup_expired_reservations now w
  exact sweepFold_fixed _ _ hsteps

/-- C5 counterexample: the sweeper iteration is NOT the user Cancel
transition.  For the expired PENDING reservation below (payment COMPLETED,
event date already past), the sweep releases the tickets and cancels
unconditionally, while `cancel_reservation` refuses (the event is not
upcoming) and, where it does fire, would also move a COMPLETED payment to
REFUNDED — the resulting states differ. -/
theorem sweep_differs_from_cancel :
    sweepStep
        (World.mk [EventS.mk 2 (-5) 100 98 10 true]
          [ReservationS.mk 1 1 2 2 10 20 .pending .completed (some "P")
            (-100)])
        (ReservationS.mk 1 1 2 2 10 20 .pending .completed (some "P")
          (-100)) ≠
      World.mk
        [((ReservationS.mk 1 1 2 2 10 20 .pending .completed (some "P")
            (-100)).cancel_reservation (EventS.mk 2 (-5) 100 98 10 true)
            0).2.1]
        [((ReservationS.mk 1 1 2 2 10 20 .pending .completed (some "P")
            (-100)).cancel_reservation (EventS.mk 2 (-5) 100 98 10 true)
            0).1] := by decide

/-- C5 amended: a sweeper iteration coincides with the user cancellation of
the same reservation only under two extra hypotheses the sweep itself never
checks — the event is still upcoming and the payment is not COMPLETED; the
sweep skips `can_be_cancelled` and never touches `payment_status`, so
without them the two code paths diverge. -/
theorem sweep_eq_cancel_when_upcoming (r : ReservationS) (e : EventS)
    (now : Int) (hpend : r.reservation_status = .pending)
    (hpay : r.payment_status ≠ .completed)
    (hup : e.event_date > now) (hev : r.event_id = e.id) :
    sweepStep (World.mk [e] [r]) r =
      World.mk [(r.cancel_reservation e now).2.1]
        [(r.cancel_reservation e now).1] := by
  have hcan : r.can_be_cancelled e now = true := by
    apply (can_be_cancelled_iff r e now).mpr
    refine ⟨?_, hup⟩
    rw [hpend]
    intro hc
    cases hc
  have hcr := cancel_reservation_of_can r e now hcan
  have hbe : (r.payment_status == PaymentStatus.completed) = false := by
    simp [hpay]
  have hany : ([e].any (fun x => x.id == r.event_id)) = true := by
    simp [hev]
  unfold sweepStep
  rw [if_pos hany, hcr]
  simp [hev, hbe]

/-- Witness for the amended C5 at a concrete upcoming event. -/
theorem sweep_eq_cancel_when_upcoming_witness :
    sweepStep
        (World.mk [EventS.mk 3 50 100 98 10 true]
          [ReservationS.mk 4 1 3 2 10 20 .pending .pending none (-100)])
        (ReservationS.mk 4 1 3 2 10 20 .pending .pending none (-100)) =
      World.mk
        [((ReservationS.mk 4 1 3 2 10 20 .pending .pending none
            (-100)).cancel_reservation (EventS.mk 3 50 100 98 10 true)
            0).2.1]
        [((ReservationS.mk 4 1 3 2 10 20 .pending .pending none
            (-100)).cancel_reservation (EventS.mk 3 50 100 98 10 true)
            0).1] :=
  sweep_eq_cancel_when_upcoming
    (ReservationS.mk 4 1 3 2 10 20 .pending .pending none (-100))
    (EventS.mk 3 50 100 98 10 true) 0 rfl (by decide) (by decide) rfl

/-- C7 counterexample: paying reservation 1 with a `payment_reference`
already recorded on reservation 2 does not fail with a typed
DuplicatePaymentReference — no such branch exists in the view — but lands
in the catch-all `except Exception` handler around the failed commit, the
500 response `'Payment processing error'`, a raw-storage-failure outcome
(the persisted state is unchanged). -/
theorem duplicate_reference_generic_error :
    process_payment
        (World.mk []
          [ReservationS.mk 1 1 1 2 10 20 .pending .pending none 0,
            ReservationS.mk 2 2 1 3 10 30 .confirmed .completed (some "REF")
              0])
        1 1 "REF" =
      (World.mk []
        [ReservationS.mk 1 1 1 2 10 20 .pending .pending none 0,
          ReservationS.mk 2 2 1 3 10 30 .confirmed .completed (some "REF")
            0],
        .paymentProcessingError) := by decide

/-- C7 amended: a payment whose reference collides with another
reservation's recorded reference fails through the generic
`'Payment processing error'` 500 handler (the unique-constraint violation
surfacing as an exception), not a typed error, leaving the persisted state
unchanged; without a collision the payment succeeds, records the reference
on the target row, and preserves reference uniqueness across all rows. -/
theorem process_payment_duplicate_spec (w : World) (user rid : Nat)
    (ref : String) (r : ReservationS)
    (hf : w.findReservation rid user = some r)
    (hp : r.reservation_status = .pending) :
    ((∃ x ∈ w.reservations, x.id ≠ r.id ∧ x.payment_reference = some ref) →
      process_payment w user rid ref = (w, .paymentProcessingError)) ∧
    ((∀ x ∈ w.reservations, x.id ≠ r.id → x.payment_reference ≠ some ref) →
      (process_payment w user rid ref).2 = .ok ∧
      (∀ y ∈ (process_payment w user rid ref).1.reservations,
        y.id = r.id → y.payment_reference = some ref) ∧
      (RefsUnique w.reservations →
        RefsUnique (process_payment w user rid ref).1.reservations)) := by
  have hpb : (!(r.reservation_status == ReservationStatus.pending)) =
      false := by simp [hp]
  constructor
  · intro hdup
    obtain ⟨x, hx, hxid, hxref⟩ := hdup
    have hany : (w.reservations.any (fun y =>
        y.id != r.id && y.payment_reference == some ref)) = true := by
      apply List.any_eq_true.mpr
      refine ⟨x, hx, ?_⟩
      simp [hxid, hxref]
    unfold process_payment
    rw [hf]
    simp only [hpb, Bool.false_eq_true, if_false, hany, if_true]
  · intro hnodup
    have hany : (w.reservations.any (fun y =>
        y.id != r.id && y.payment_reference == some ref)) = false := by
      apply List.any_eq_false.mpr
      intro x hx
      simp only [Bool.and_eq_true, bne_iff_ne, beq_iff_eq, not_and]
      intro hxid
      exact hnodup x hx hxid
    have hrun : process_payment w user rid ref =
        (w.mapReservation r.id (fun x => x.confirm_payment ref), .ok) := by
      unfold process_payment
      rw [hf]
      simp only [hpb, Bool.false_eq_true, if_false, hany, if_true]
    rw [hrun]
    refine ⟨rfl, ?_, ?_⟩
    · intro y hy hyid
      unfold World.mapReservation at hy
      obtain ⟨x, hx, rfl⟩ := List.mem_map.mp hy
      by_cases hc : x.id = r.id
      · have hcb : (x.id == r.id) = true := by simp [hc]
        simp only [hcb, if_true]
        rfl
      · have hcb : (x.id == r.id) = false := by simp [hc]
        simp only [hcb, Bool.false_eq_true, if_false] at hyid ⊢
        exact absurd hyid hc
    · intro hu a ha b hb hab s has
      unfold World.mapReservation at ha hb
      obtain ⟨xa, hxa, rfl⟩ := List.mem_map.mp ha
      obtain ⟨xb, hxb, rfl⟩ := List.mem_map.mp hb
      by_cases hca : xa.id = r.id <;> by_cases hcb : xb.id = r.id
      · exfalso
        apply hab
        have h1 : (xa.id == r.id) = true := by simp [hca]
        have h2 : (xb.id == r.id) = true := by simp [hcb]
        simp only [h1, h2, if_true]
        have i1 : (xa.confirm_payment ref).id = xa.id := rfl
        have i2 : (xb.confirm_payment ref).id = xb.id := rfl
        rw [i1, i2, hca, hcb]
      · have h1 : (xa.id == r.id) = true := by simp [hca]
        have h2 : (xb.id == r.id) = false := by simp [hcb]
        simp only [h1, if_true] at has ⊢
        simp only [h2, Bool.false_eq_true, if_false]
        have : (xa.confirm_payment ref).payment_reference = some ref := rfl
        rw [this] at has
        cases has
        exact hnodup xb hxb hcb
      · have h1 : (xa.id == r.id) = false := by simp [hca]
        have h2 : (xb.id == r.id) = true := by simp [hcb]
        simp only [h1, Bool.false_eq_true, if_false] at has ⊢
        simp only [h2, if_true]
        have hbr : (xb.confirm_payment ref).payment_reference =
            some ref := rfl
        rw [hbr]
        intro hcon
        cases hcon
        exact hnodup xa hxa hca has
      · have h1 : (xa.id == r.id) = false := by simp [hca]
        have h2 : (xb.id == r.id) = false := by simp [hcb]
        simp only [h1, h2, Bool.false_eq_true, if_false] at has hab ⊢
        exact hu xa hxa xb hxb hab s has

/-- Witness for the amended C7: a duplicate reference at a concrete world
hits the generic error with the world unchanged. -/
theorem process_payment_duplicate_spec_witness :
    process_payment
        (World.mk []
          [ReservationS.mk 5 1 1 1 10 10 .pending .pending none 0,
            ReservationS.mk 6 3 1 1 10 10 .confirmed .completed (some "Q")
              0])
        1 5 "Q" =
      (World.mk []
        [ReservationS.mk 5 1 1 1 10 10 .pending .pending none 0,
          ReservationS.mk 6 3 1 1 10 10 .confirmed .completed (some "Q") 0],
        .paymentProcessingError) :=
  (process_payment_duplicate_spec
      (World.mk []
        [ReservationS.mk 5 1 1 1 10 10 .pending .pending none 0,
          ReservationS.mk 6 3 1 1 10 10 .confirmed .completed (some "Q") 0])
      1 5 "Q" (ReservationS.mk 5 1 1 1 10 10 .pending .pending none 0)
      (by decide) rfl).1
    ⟨ReservationS.mk 6 3 1 1 10 10 .confirmed .completed (some "Q") 0,
      by decide, by decide, rfl⟩

/-- C4: the duplicate-pending rule is not enforced by the create path.  User
7 already holds a PENDING reservation for event 1, yet a second
`create_reservation` call by the same user for the same event succeeds and
inserts a second row — while the repository's own
`validate_reservation_business_rules` (never called from the view) reports
exactly the duplicate-pending violation for this input. -/
theorem duplicate_pending_not_blocked :
    (create_reservation
        (World.mk [EventS.mk 1 100 50 40 10 true]
          [ReservationS.mk 1 7 1 2 10 20 .pending .pending none 0])
        7 1 3 0).2 = .created ∧
    ((create_reservation
        (World.mk [EventS.mk 1 100 50 40 10 true]
          [ReservationS.mk 1 7 1 2 10 20 .pending .pending none 0])
        7 1 3 0).1.reservations.length = 2) ∧
    "You already have a pending reservation for this event" ∈
      validate_reservation_business_rules 3
        (some (EventS.mk 1 100 50 40 10 true)) (some 7)
        (World.mk [EventS.mk 1 100 50 40 10 true]
          [ReservationS.mk 1 7 1 2 10 20 .pending .pending none 0])
        0 := by decide

/-- C6 counterexample: the `update_reservation` view writes any requested
`reservation_status`, so a CANCELLED reservation can be re-opened as
PENDING — with updates among the service-boundary operations, PENDING is
re-entered and CANCELLED is not absorbing. -/
theorem cancelled_not_absorbing_under_update :
    (World.mk []
        [ReservationS.mk 1 1 1 2 10 20 .cancelled .refunded (some "X")
          0]).reservations.map (fun r => r.reservation_status) =
      [.cancelled] ∧
    ((update_reservation
        (World.mk []
          [ReservationS.mk 1 1 1 2 10 20 .cancelled .refunded (some "X") 0])
        1 1 (ReservationUpdate.mk (some .pending)
          none)).1).reservations.map (fun r => r.reservation_status) =
      [.pending] := by decide

/-- C6 amended: restricted to the create / pay / cancel / sweep operations
the state machine is monotone — a row that has left PENDING never returns
to it and a CANCELLED row stays CANCELLED — and reservation-id uniqueness
is preserved; the `update_reservation` view is excluded because it writes
any requested status (see the counterexample). -/
theorem status_machine_monotone (w : World) (now : Int) (op : Op)
    (hnd : (w.reservations.map ReservationS.id).Nodup) :
    (∀ r ∈ w.reservations, ∀ r' ∈ (applyOp now w op).reservations,
      r'.id = r.id →
      (r.reservation_status ≠ .pending →
        r'.reservation_status ≠ .pending) ∧
      (r.reservation_status = .cancelled →
        r'.reservation_status = .cancelled)) ∧
    (((applyOp now w op).reservations.map ReservationS.id).Nodup) := by
  cases op with
  | create user eid q =>
    constructor
    · intro r hr r' hr' hid
      have hrr := create_row_unchanged w user eid q now hnd r hr r' hr' hid
      rw [hrr]
      exact ⟨fun h => h, fun h => h⟩
    · rcases create_res_ids w user eid q now with h | h
      · show (((create_reservation w user eid q now).1.reservations).map
          ReservationS.id).Nodup
        rw [h]; exact hnd
      · show (((create_reservation w user eid q now).1.reservations).map
          ReservationS.id).Nodup
        rw [h]
        apply List.Nodup.append hnd (by simp)
        intro a ha hb
        simp only [List.mem_singleton] at hb
        obtain ⟨x, hx, rfl⟩ := List.mem_map.mp ha
        have hfresh := nextReservationId_fresh w x hx
        omega
  | pay user rid ref =>
    constructor
    · intro r hr r' hr' hid
      rcases pay_row_status w user rid ref hnd r hr r' hr' hid with h | h
      · rw [h]
        exact ⟨fun h2 => h2, fun h2 => h2⟩
      · refine ⟨fun _ => ?_, fun h2 => absurd (h.1.symm.trans h2)
          (by decide)⟩
        rw [h.2]
        intro hc
        cases hc
    · show (((process_payment w user rid ref).1.reservations).map
        ReservationS.id).Nodup
      rw [pay_res_ids]
      exact hnd
  | cancel user rid =>
    constructor
    · intro r hr r' hr' hid
      rcases cancel_row_status w user rid now hnd r hr r' hr' hid with h | h
      · rw [h]
        exact ⟨fun h2 => h2, fun h2 => h2⟩
      · refine ⟨fun _ => ?_, fun _ => h.2⟩
        rw [h.2]
        intro hc
        cases hc
    · show (((cancel_reservation_view w user rid now).1.reservations).map
        ReservationS.id).Nodup
      rw [cancel_view_res_ids]
      exact hnd
  | sweep =>
    constructor
    · intro r hr r' hr' hid
      rcases sweep_row_status w now hnd r hr r' hr' hid with h | h
      · rw [h]
        exact ⟨fun h2 => h2, fun h2 => h2⟩
      · refine ⟨fun _ => ?_, fun _ => h⟩
        rw [h]
        intro hc
        cases hc
    · show ((((cleanup_expired_reservations now w)).reservations).map
        ReservationS.id).Nodup
      unfold cleanup_expired_reservations
      rw [sweepFold_res_ids]
      exact hnd

/-- Witness for the amended C6: id uniqueness after a concrete payment on a
CANCELLED reservation (rejected, state unchanged). -/
theorem status_machine_monotone_witness :
    (((applyOp 0
        (World.mk []
          [ReservationS.mk 1 1 1 2 10 20 .cancelled .refunded (some "X") 0])
        (Op.pay 1 1 "Y")).reservations.map ReservationS.id).Nodup) :=
  (status_machine_monotone
    (World.mk []
      [ReservationS.mk 1 1 1 2 10 20 .cancelled .refunded (some "X") 0])
    0 (Op.pay 1 1 "Y") (by decide)).2

/-- C1: each completed service operation — create, pay, cancel or expiry
sweep — preserves the per-event inventory invariant: the strengthened
inductive invariant is preserved, and in particular afterwards
`available_tickets` plus the ticket sum of PENDING/CONFIRMED reservations
equals `total_capacity`, with `available_tickets` within `[0,
total_capacity]`. -/
theorem inventory_invariant_preserved (w : World) (now : Int) (op : Op)
    (k : Nat) (h : StrongInv w k) :
    StrongInv (applyOp now w op) k ∧ InventoryInv (applyOp now w op) k := by
  have hs : StrongInv (applyOp now w op) k := by
    cases op with
    | create user eid q => exact create_strongInv k w user eid q now h
    | pay user rid ref => exact pay_strongInv k w user rid ref h
    | cancel user rid => exact cancel_strongInv k w user rid now h
    | sweep => exact sweep_strongInv k now w h
  exact ⟨hs, hs.2.2.2⟩

/-- Witness for C1: a concrete world satisfying the invariant, swept. -/
theorem inventory_invariant_preserved_witness :
    InventoryInv (applyOp 0 (World.mk
      [EventS.mk 1 100 50 47 10 true]
      [ReservationS.mk 1 1 1 3 10 30 .pending .pending none (-20)])
      .sweep) 1 :=
  (inventory_invariant_preserved
    (World.mk
      [EventS.mk 1 100 50 47 10 true]
      [ReservationS.mk 1 1 1 3 10 30 .pending .pending none (-20)])
    0 .sweep 1
    (by unfold StrongInv InventoryInv; decide)).2

/-- C3: `can_reserve_tickets` is true exactly when the event is active,
upcoming, the quantity is positive and does not exceed availability;
`reserve_tickets` is a no-op returning `false` when the guard fails and
otherwise decrements `available_tickets` by exactly the quantity, leaving
every other field unchanged, and returns `true`. -/
theorem canReserve_reserve_spec (e : EventS) (now q : Int) :
    (e.can_reserve_tickets now q = true ↔
      (e.is_active = true ∧ e.event_date > now ∧ 0 < q ∧
        q ≤ e.available_tickets)) ∧
    (e.can_reserve_tickets now q = false →
      e.reserve_tickets now q = (e, false)) ∧
    (e.can_reserve_tickets now q = true →
      e.reserve_tickets now q =
        ({ e with available_tickets := e.available_tickets - q }, true)) :=
  ⟨can_reserve_tickets_iff e now q, reserve_tickets_of_not e now q,
    reserve_tickets_of_can e now q⟩

/-- Witness for C3 at a concrete event and quantity. -/
theorem canReserve_reserve_spec_witness :
    (EventS.mk 1 100 50 20 10 true).can_reserve_tickets 0 3 = true ∧
    (EventS.mk 1 100 50 20 10 true).reserve_tickets 0 3 =
      (EventS.mk 1 100 50 17 10 true, true) := by
  have h := canReserve_reserve_spec (EventS.mk 1 100 50 20 10 true) 0 3
  have hc : (EventS.mk 1 100 50 20 10 true).can_reserve_tickets 0 3 = true := by
    decide
  refine ⟨hc, ?_⟩
  have h2 := h.2.2 hc
  rw [h2]
  decide

/-- C8: a successful `reserve_tickets q` followed by `release_tickets q`
restores the event exactly (all fields); `release_tickets` adds the quantity
to `available_tickets` clamped by `total_capacity`, so the result never
exceeds capacity. -/
theorem reserve_release_round_trip (e : EventS) (now q : Int)
    (h0 : 0 ≤ e.available_tickets)
    (hcap : e.available_tickets ≤ e.total_capacity) :
    ((e.reserve_tickets now q).2 = true →
      (e.reserve_tickets now q).1.release_tickets q = e) ∧
    (e.release_tickets q).available_tickets =
      min (e.available_tickets + q) e.total_capacity ∧
    (e.release_tickets q).available_tickets ≤ e.total_capacity := by
  refine ⟨?_, rfl, min_le_right _ _⟩
  intro hsucc
  have hres : e.reserve_tickets now q =
      ({ e with available_tickets := e.available_tickets - q }, true) := by
    by_cases hc : e.can_reserve_tickets now q = true
    · simp [EventS.reserve_tickets, hc]
    · exfalso
      simp only [Bool.not_eq_true] at hc
      simp [EventS.reserve_tickets, hc] at hsucc
  rw [hres]
  simp only [EventS.release_tickets]
  have : e.available_tickets - q + q = e.available_tickets := by ring
  rw [this]
  have hmin : min e.available_tickets e.total_capacity = e.available_tickets :=
    min_eq_left hcap
  cases e
  simp_all

/-- Witness for C8 at a concrete event. -/
theorem reserve_release_round_trip_witness :
    ((EventS.mk 1 100 50 20 10 true).reserve_tickets 0 5).1.release_tickets 5 =
      EventS.mk 1 100 50 20 10 true := by
  exact (reserve_release_round_trip (EventS.mk 1 100 50 20 10 true) 0 5
    (by decide) (by decide)).1 (by decide)

/-- C10: the model method `confirm_payment` unconditionally (from any status,
including CANCELLED) sets CONFIRMED / COMPLETED / the given reference and
changes no other reservation field; the `process_payment` view never touches
the events table, and it alone enforces the PENDING-only precondition by
rejecting any non-PENDING reservation with the world unchanged. -/
theorem confirm_payment_frame (r : ReservationS) (ref : String) :
    (r.confirm_payment ref).reservation_status = .confirmed ∧
    (r.confirm_payment ref).payment_status = .completed ∧
    (r.confirm_payment ref).payment_reference = some ref ∧
    (r.confirm_payment ref).id = r.id ∧
    (r.confirm_payment ref).user_id = r.user_id ∧
    (r.confirm_payment ref).event_id = r.event_id ∧
    (r.confirm_payment ref).ticket_quantity = r.ticket_quantity ∧
    (r.confirm_payment ref).unit_price = r.unit_price ∧
    (r.confirm_payment ref).total_amount = r.total_amount ∧
    (r.confirm_payment ref).created_at = r.created_at ∧
    (∀ (w : World) (user rid : Nat),
      (process_payment w user rid ref).1.events = w.events) ∧
    (∀ (w : World) (user rid : Nat) (r₀ : ReservationS),
      w.findReservation rid user = some r₀ →
      r₀.reservation_status ≠ .pending →
      process_payment w user rid ref = (w, .cannotBePaid)) := by
  refine ⟨rfl, rfl, rfl, rfl, rfl, rfl, rfl, rfl, rfl, rfl, ?_, ?_⟩
  · intro w user rid
    unfold process_payment
    split
    · rfl
    · split
      · rfl
      · split
        · rfl
        · simp [World.mapReservation]
  · intro w user rid r₀ hf hp
    have hb : (r₀.reservation_status == .pending) = false := by
      simp [beq_eq_false_iff_ne, hp]
    simp [process_payment, hf, hb]

/-- Witness for C10: `confirm_payment` applied to a CANCELLED reservation
still flips it to CONFIRMED/COMPLETED, and the view rejects paying that same
reservation with the state unchanged. -/
theorem confirm_payment_frame_witness :
    ((ReservationS.mk 1 1 1 2 10 20 .cancelled .pending none 0).confirm_payment
        "R1").reservation_status = .confirmed ∧
    process_payment
        (World.mk []
          [ReservationS.mk 1 1 1 2 10 20 .cancelled .pending none 0]) 1 1 "R1" =
      (World.mk []
          [ReservationS.mk 1 1 1 2 10 20 .cancelled .pending none 0],
        .cannotBePaid) := by
  have h := confirm_payment_frame
    (ReservationS.mk 1 1 1 2 10 20 .cancelled .pending none 0) "R1"
  refine ⟨h.1, ?_⟩
  exact h.2.2.2.2.2.2.2.2.2.2.2
    (World.mk [] [ReservationS.mk 1 1 1 2 10 20 .cancelled .pending none 0])
    1 1 (ReservationS.mk 1 1 1 2 10 20 .cancelled .pending none 0)
    (by decide) (by decide)

/-- C2: cancellation is legal exactly when the reservation is not CANCELLED
and the event date is still in the future; a legal cancellation releases the
held quantity (clamped by capacity, hence exactly when no overflow), sets the
reservation CANCELLED and moves a COMPLETED payment to REFUNDED, leaving
other payment states alone; and the create–pay–cancel round trip restores
`available_tickets` to its pre-create value with status CANCELLED and
payment REFUNDED. -/
theorem cancel_reservation_spec (r : ReservationS) (e : EventS) (now : Int) :
    (r.can_be_cancelled e now = true ↔
      (r.reservation_status ≠ .cancelled ∧ e.event_date > now)) ∧
    (r.can_be_cancelled e now = true →
      r.cancel_reservation e now =
        ({ r with
            reservation_status := .cancelled
            payment_status :=
              if r.payment_status == .completed then .refunded
              else r.payment_status },
          e.release_tickets r.ticket_quantity, true)) ∧
    (r.can_be_cancelled e now = false →
      r.cancel_reservation e now = (r, e, false)) ∧
    (∀ (q now' : Int) (uid rid : Nat) (ref : String),
      e.can_reserve_tickets now q = true →
      e.available_tickets ≤ e.total_capacity →
      e.event_date > now' →
      ReservationS.cancel_reservation
          (ReservationS.confirm_payment
            (ReservationS.mk rid uid e.id q e.ticket_price
              (e.ticket_price * (q : Rat)) .pending .pending none now) ref)
          (e.reserve_tickets now q).1 now' =
        (ReservationS.mk rid uid e.id q e.ticket_price
            (e.ticket_price * (q : Rat)) .cancelled .refunded (some ref) now,
          e, true)) := by
  refine ⟨can_be_cancelled_iff r e now, cancel_reservation_of_can r e now,
    cancel_reservation_of_not r e now, ?_⟩
  · intro q now' uid rid ref hres hcap hup
    have hq : q ≤ e.available_tickets := by
      have := (can_reserve_tickets_iff e now q).mp hres
      exact this.2.2.2
    have hstep : (e.reserve_tickets now q).1 =
        { e with available_tickets := e.available_tickets - q } := by
      rw [reserve_tickets_of_can e now q hres]
    rw [hstep]
    simp only [ReservationS.confirm_payment, ReservationS.cancel_reservation,
      ReservationS.can_be_cancelled, EventS.is_upcoming, EventS.release_tickets]
    have hcan : (!((ReservationStatus.confirmed : ReservationStatus) ==
        .cancelled) && decide (e.event_date > now')) = true := by
      simp [hup]
    simp only [hcan, if_true]
    have hsum : e.available_tickets - q + q = e.available_tickets := by ring
    simp [hsum, min_eq_left hcap]

/-- Witness for C2: capacity 100, create qty 2, pay, cancel — availability
returns to 100, status CANCELLED, payment REFUNDED. -/
theorem cancel_reservation_spec_witness :
    ReservationS.cancel_reservation
        (ReservationS.confirm_payment
          (ReservationS.mk 7 1 1 2 10 (10 * ((2 : Int) : Rat)) .pending
            .pending none 0) "R7")
        ((EventS.mk 1 500 100 100 10 true).reserve_tickets 0 2).1 1 =
      (ReservationS.mk 7 1 1 2 10 (10 * ((2 : Int) : Rat)) .cancelled .refunded
          (some "R7") 0,
        EventS.mk 1 500 100 100 10 true, true) :=
  (cancel_reservation_spec
    (ReservationS.mk 7 1 1 2 10 20 .pending .pending none 0)
    (EventS.mk 1 500 100 100 10 true) 0).2.2.2 2 1 1 7 "R7"
    (by decide) (by decide) (by decide)

end TicketSystem
